import Mathlib

/-!
A shallow embedding of the diagonator-server core (src/manager.rs) together
with models of its external collaborators (the clock primitives of
src/time.rs, the response type of src/server.rs and the event simulator of
src/simulator.rs, none of which are part of the core sources), and proofs
of the specification's claims about the core.
-/

namespace Diagonator

/-- Modelled from the spec: the clock collaborator's opaque, totally ordered
instant type ("wall-clock timestamp arithmetic ... treated as opaque ordered
values supporting addition and comparison", src/time.rs is external).
Instants are minutes since the epoch. -/
abbrev Timestamp := Nat

/-- Modelled from the spec: the clock collaborator's duration type, in
minutes. -/
abbrev Duration := Nat

/-- Modelled from the spec: a calendar date, identified by its index since
the epoch. -/
abbrev LocalDate := Nat

/-- Modelled from the spec: a time of day, as minutes since midnight. -/
abbrev HourMinute := Nat

/-- Modelled from the spec: the epoch instant (`Timestamp::ZERO`). -/
def Timestamp.ZERO : Timestamp := 0

def minutesPerDay : Nat := 1440

/-- Modelled from the spec: "a function deriving a calendar date from an
instant" (`Timestamp::get_date`). -/
def Timestamp.get_date (t : Timestamp) : LocalDate := t / minutesPerDay

/-- Modelled from the spec: anchoring a time of day to a calendar date
(`Timestamp::from_date_hm`). -/
def Timestamp.from_date_hm (d : LocalDate) (hm : HourMinute) : Timestamp :=
  d * minutesPerDay + hm

/-- Modelled from the spec: `Timestamp::from_date_hm_opt`, the optional
variant used for range bounds. -/
def Timestamp.from_date_hm_opt (d : LocalDate) (hm : Option HourMinute) :
    Option Timestamp :=
  hm.map (Timestamp.from_date_hm d)

/-- Embeds `Requirement` (manager.rs): a daily obligation instance. -/
structure Requirement where
  id : Nat
  name : String
  due : Timestamp
  complete : Bool
deriving Repr, DecidableEq

/-- Embeds `TimeRange` (manager.rs): a daily locked time-range instance; `none`
bounds mean unbounded in that direction. -/
structure TimeRange where
  id : Nat
  start : Option Timestamp
  «end» : Option Timestamp
deriving Repr, DecidableEq

/-- Embeds `BreakTimer` (manager.rs): the three-state hysteresis machine's state. -/
inductive BreakTimer where
  | Unlocked («until» : Timestamp)
  | Locked («until» : Timestamp)
  | Unlockable
deriving Repr, DecidableEq

/-- Embeds `BreakTimerManager` (manager.rs): the timer state plus the configured
work-period and break durations. -/
structure BreakTimerManager where
  timer : BreakTimer
  work_period_duration : Duration
  break_duration : Duration
deriving Repr, DecidableEq

/-- Embeds `BreakTimerManager::new` (manager.rs). -/
def BreakTimerManager.new (work_period_duration break_duration : Duration) :
    BreakTimerManager :=
  { timer := BreakTimer.Unlockable, work_period_duration, break_duration }

/-- Embeds `BreakTimerManager::refresh` (manager.rs lines 69-82): two sequential
conditional transitions, `Unlocked -> Locked` anchored at the expired
`until`, then `Locked -> Unlockable`. -/
def BreakTimerManager.refresh (m : BreakTimerManager) (current_time : Timestamp) :
    BreakTimerManager :=
  let m1 :=
    match m.timer with
    | BreakTimer.Unlocked u =>
        if current_time ≥ u then
          { m with timer := BreakTimer.Locked (u + m.break_duration) }
        else m
    | _ => m
  match m1.timer with
  | BreakTimer.Locked u =>
      if current_time ≥ u then { m1 with timer := BreakTimer.Unlockable } else m1
  | _ => m1

/-- Embeds `BreakTimerManager::unlock` (manager.rs lines 44-56): refresh, then
transition `Unlockable -> Unlocked{now + work_period}` or fail. -/
def BreakTimerManager.unlock (m : BreakTimerManager) (current_time : Timestamp) :
    Except String Unit × BreakTimerManager :=
  let m := m.refresh current_time
  match m.timer with
  | BreakTimer.Unlockable =>
      (Except.ok (),
        { m with timer := BreakTimer.Unlocked (current_time + m.work_period_duration) })
  | BreakTimer.Locked _ => (Except.error "Break timer is locked.", m)
  | BreakTimer.Unlocked _ => (Except.error "Break timer is already unlocked.", m)

/-- Embeds `BreakTimerManager::lock` (manager.rs lines 57-68): refresh, then
transition `Unlocked -> Locked{now + break_duration}` or fail. -/
def BreakTimerManager.lock (m : BreakTimerManager) (current_time : Timestamp) :
    Except String Unit × BreakTimerManager :=
  let m := m.refresh current_time
  match m.timer with
  | BreakTimer.Unlocked _ =>
      (Except.ok (),
        { m with timer := BreakTimer.Locked (current_time + m.break_duration) })
  | _ => (Except.error "Break timer is not unlocked.", m)

/-- The pure transition performed by `BreakTimerManager::refresh` on the
timer state, in closed form (used to reason about the two sequential
conditionals of the source). -/
def refreshTimer (bd : Duration) (t : Timestamp) : BreakTimer → BreakTimer
  | BreakTimer.Unlocked u =>
      if u ≤ t then
        (if u + bd ≤ t then BreakTimer.Unlockable else BreakTimer.Locked (u + bd))
      else BreakTimer.Unlocked u
  | BreakTimer.Locked u =>
      if u ≤ t then BreakTimer.Unlockable else BreakTimer.Locked u
  | BreakTimer.Unlockable => BreakTimer.Unlockable

/-- Embeds `CurrentState` (manager.rs): the combined three-way session state. -/
inductive CurrentState where
  | Unlocked
  | Locked
  | Unlockable
deriving Repr, DecidableEq

/-- Embeds `CurrentStateReason` (manager.rs): the tagged reason for the state. -/
inductive CurrentStateReason where
  | BreakTimer
  | RequirementNotMet (id : Nat)
  | LockedTimeRange (id : Nat)
  | NoConstraints
deriving Repr, DecidableEq

/-- Embeds `StateChangeKind` (declared in the external src/simulator.rs; the
variants and payloads are those used by manager.rs). -/
inductive StateChangeKind where
  | RequirementLocked (id : Nat)
  | RangeLocked (id : Nat)
  | RangeUnlocked (id : Nat)
  | BreakTimerLocked
  | BreakTimerUnlockable
deriving Repr, DecidableEq

/-- Embeds `StateChange` (src/simulator.rs, external): a timestamped trigger. -/
structure StateChange where
  kind : StateChangeKind
  time : Timestamp
deriving Repr, DecidableEq

/-- The simulator's event buffer: `Simulator::push` appends, so the buffer
is the list of pushed triggers in push order. -/
abbrev Simulator := List StateChange

/-- Embeds `SimulationResult` (src/simulator.rs, external): the
(state, next-change, reason) triple returned by `Simulator::run`. -/
structure SimulationResult where
  target_state : CurrentState
  «until» : Option Timestamp
  reason : CurrentStateReason
deriving Repr, DecidableEq

/-- Modelled from the spec: whether a requirement trigger is active at `T`
("a lock-from trigger at its due instant ... no matching unlock trigger"). -/
def reqActive (T : Timestamp) (e : StateChange) : Bool :=
  match e.kind with
  | StateChangeKind.RequirementLocked _ => e.time ≤ T
  | _ => false

/-- Modelled from the spec: the unlock-at trigger time paired with range
`i`, if any. -/
def rangeUnlockTime (events : List StateChange) (i : Nat) : Option Timestamp :=
  (events.find? fun e => e.kind = StateChangeKind.RangeUnlocked i).map (·.time)

/-- Modelled from the spec: whether a range lock-from trigger is active at
`T` — `T` lies in the lock interval, where "an unterminated lock-from with
no later unlock-at counts as active for all T at or after it". -/
def rangeActive (events : List StateChange) (T : Timestamp) (e : StateChange) :
    Bool :=
  match e.kind with
  | StateChangeKind.RangeLocked i =>
      e.time ≤ T &&
        (match rangeUnlockTime events i with
         | none => true
         | some u => if e.time ≤ u then T < u else true)
  | _ => false

/-- Modelled from the spec: the break-timer unlock-at trigger time, if any. -/
def btUnlockTime (events : List StateChange) : Option Timestamp :=
  (events.find? fun e => e.kind = StateChangeKind.BreakTimerUnlockable).map (·.time)

/-- Modelled from the spec: whether a break-timer lock-from trigger is
active at `T`. -/
def btActive (events : List StateChange) (T : Timestamp) (e : StateChange) :
    Bool :=
  match e.kind with
  | StateChangeKind.BreakTimerLocked =>
      e.time ≤ T &&
        (match btUnlockTime events with
         | none => true
         | some u => if e.time ≤ u then T < u else true)
  | _ => false

/-- Modelled from the spec: the smallest trigger timestamp strictly greater
than `T` across all pushed triggers, or `none` ("`until` = the smallest
trigger timestamp strictly greater than T ... or None"). -/
def nextChange (events : List StateChange) (T : Timestamp) : Option Timestamp :=
  (events.filterMap fun e => if T < e.time then some e.time else none).min?

/-- Modelled from the spec: `Simulator::run` (src/simulator.rs, external).
Resolves the combined state at `T` by fixed category priority —
requirements, then ranges, then break timer — and reports the next
trigger strictly after `T` as the prediction hint. -/
def Simulator.run (events : Simulator) (T : Timestamp) : SimulationResult :=
  let «until» := nextChange events T
  match events.find? (reqActive T) with
  | some e =>
      { target_state := CurrentState.Locked, «until»,
        reason :=
          match e.kind with
          | StateChangeKind.RequirementLocked i => CurrentStateReason.RequirementNotMet i
          | _ => CurrentStateReason.NoConstraints }
  | none =>
  match events.find? (rangeActive events T) with
  | some e =>
      { target_state := CurrentState.Locked, «until»,
        reason :=
          match e.kind with
          | StateChangeKind.RangeLocked i => CurrentStateReason.LockedTimeRange i
          | _ => CurrentStateReason.NoConstraints }
  | none =>
  if events.any (btActive events T) then
    { target_state := CurrentState.Locked, «until»,
      reason := CurrentStateReason.BreakTimer }
  else if events.any fun e =>
      e.kind = StateChangeKind.BreakTimerLocked && T < e.time then
    { target_state := CurrentState.Unlocked, «until»,
      reason := CurrentStateReason.NoConstraints }
  else
    { target_state := CurrentState.Unlockable, «until»,
      reason := CurrentStateReason.NoConstraints }

/-- Embeds `CurrentInfo` (manager.rs): the derived snapshot read model. -/
structure CurrentInfo where
  state : CurrentState
  «until» : Option Timestamp
  reason : CurrentStateReason
  locked_time_ranges : List TimeRange
  requirements : List Requirement
  deactivated_until : Option Timestamp
  diagonator_running : Bool
deriving Repr, DecidableEq

/-- Embeds `Constraints` (manager.rs): the aggregate owning the day's instances,
the break timer and the deactivation override. -/
structure Constraints where
  break_timer : BreakTimerManager
  requirements : List Requirement
  locked_time_ranges : List TimeRange
  deactivated_until : Option Timestamp
deriving Repr, DecidableEq

/-- The sequence of `simulator.push` calls performed by
`Constraints::get_current_info` (manager.rs lines 126-173): requirements
first, then locked time ranges, then the break timer. -/
def Constraints.buildEvents (c : Constraints) : Simulator :=
  let sim : Simulator := []
  let sim := c.requirements.foldl
    (fun sim r =>
      if !r.complete then
        sim.concat { kind := StateChangeKind.RequirementLocked r.id, time := r.due }
      else sim)
    sim
  let sim := c.locked_time_ranges.foldl
    (fun sim ltr =>
      let sim := sim.concat
        { kind := StateChangeKind.RangeLocked ltr.id,
          time := ltr.start.getD Timestamp.ZERO }
      match ltr.«end» with
      | some ltr_end =>
          sim.concat { kind := StateChangeKind.RangeUnlocked ltr.id, time := ltr_end }
      | none => sim)
    sim
  match c.break_timer.timer with
  | BreakTimer.Unlocked u =>
      sim.concat { kind := StateChangeKind.BreakTimerLocked, time := u }
  | BreakTimer.Locked u =>
      (sim.concat { kind := StateChangeKind.BreakTimerLocked, time := Timestamp.ZERO }).concat
        { kind := StateChangeKind.BreakTimerUnlockable, time := u }
  | BreakTimer.Unlockable =>
      sim.concat { kind := StateChangeKind.BreakTimerUnlockable, time := Timestamp.ZERO }

/-- Embeds `Constraints::get_current_info` (manager.rs lines 119-186): refresh the
break timer, lazily clear an elapsed deactivation override, run the
simulator over the pushed triggers, and assemble the snapshot. Returns the
snapshot together with the updated aggregate (`&mut self` in the source). -/
def Constraints.get_current_info (c : Constraints) (current_time : Timestamp) :
    CurrentInfo × Constraints :=
  let bt := c.break_timer.refresh current_time
  let du :=
    match c.deactivated_until with
    | some du => if current_time ≥ du then none else some du
    | none => none
  let c' : Constraints := { c with break_timer := bt, deactivated_until := du }
  let result := Simulator.run c'.buildEvents current_time
  let diagonator_running :=
    !(result.target_state = CurrentState.Unlocked || du.isSome)
  ({ state := result.target_state,
     «until» := result.«until»,
     reason := result.reason,
     locked_time_ranges := c'.locked_time_ranges,
     requirements := c'.requirements,
     deactivated_until := du,
     diagonator_running }, c')

/-- The loop body of `Constraints::complete_requirement` (manager.rs lines
187-199), as a recursion over the requirement list. -/
def completeReqList (id : Nat) : List Requirement →
    Except String (List Requirement)
  | [] => Except.error s!"Requirement {id} not found."
  | r :: rs =>
      if r.id = id then
        if !r.complete then Except.ok ({ r with complete := true } :: rs)
        else Except.error s!"Requirement {id} has already been completed."
      else (completeReqList id rs).map (r :: ·)

/-- Embeds `Constraints::complete_requirement` (manager.rs lines 187-199). -/
def Constraints.complete_requirement (c : Constraints) (id : Nat) :
    Except String Unit × Constraints :=
  match completeReqList id c.requirements with
  | Except.ok rs => (Except.ok (), { c with requirements := rs })
  | Except.error msg => (Except.error msg, c)

/-- Embeds `RequirementConfig` (config.rs): a requirement template. -/
structure RequirementConfig where
  name : String
  due : HourMinute
deriving Repr, DecidableEq

/-- Embeds `LockedTimeRangeConfig` (config.rs): a time-range template. -/
structure LockedTimeRangeConfig where
  start : Option HourMinute
  «end» : Option HourMinute
deriving Repr, DecidableEq

/-- Embeds `DiagonatorManagerConfig` (manager.rs). -/
structure DiagonatorManagerConfig where
  requirements : List RequirementConfig
  locked_time_ranges : List LockedTimeRangeConfig
  work_period_duration : Duration
  break_duration : Duration
deriving Repr, DecidableEq

/-- Modelled from the spec: `Response` (src/server.rs, external) — "each
returning either a success marker, a snapshot, or a human-readable error
string". Only the variants used by manager.rs are modelled. -/
inductive Response where
  | Success
  | Error (msg : String)
  | Info (info : CurrentInfo)
deriving Repr, DecidableEq

/-- Embeds `IdGenerator` (manager.rs lines 391-403). -/
structure IdGenerator where
  last_id : Nat
deriving Repr, DecidableEq

/-- Embeds `IdGenerator::next_id` (manager.rs): increments and returns the id. -/
def IdGenerator.next_id (g : IdGenerator) : Nat × IdGenerator :=
  (g.last_id + 1, { last_id := g.last_id + 1 })

/-- Embeds `DiagonatorManagerInner` (manager.rs lines 320-325). -/
structure DiagonatorManagerInner where
  config : DiagonatorManagerConfig
  constraints : Constraints
  current_date : LocalDate
  id_generator : IdGenerator
deriving Repr, DecidableEq

/-- The requirement-instantiating loop of `DiagonatorManagerInner::new_day`
(manager.rs lines 344-354): one fresh id per template, due anchored to the
current date, `complete` false. -/
def makeRequirements (d : LocalDate) (g : IdGenerator) :
    List RequirementConfig → List Requirement × IdGenerator
  | [] => ([], g)
  | rc :: rcs =>
      let (id, g) := g.next_id
      let (rest, g') := makeRequirements d g rcs
      ({ id, name := rc.name, due := Timestamp.from_date_hm d rc.due,
         complete := false } :: rest, g')

/-- The range-instantiating loop of `DiagonatorManagerInner::new_day`
(manager.rs lines 355-364). -/
def makeRanges (d : LocalDate) (g : IdGenerator) :
    List LockedTimeRangeConfig → List TimeRange × IdGenerator
  | [] => ([], g)
  | rc :: rcs =>
      let (id, g) := g.next_id
      let (rest, g') := makeRanges d g rcs
      ({ id, start := Timestamp.from_date_hm_opt d rc.start,
         «end» := Timestamp.from_date_hm_opt d rc.«end» } :: rest, g')

/-- Embeds `DiagonatorManagerInner::new_day` (manager.rs lines 343-365): replace
both instance lists from the configuration templates. -/
def DiagonatorManagerInner.new_day (s : DiagonatorManagerInner) :
    DiagonatorManagerInner :=
  let (reqs, g) := makeRequirements s.current_date s.id_generator s.config.requirements
  let (ltrs, g') := makeRanges s.current_date g s.config.locked_time_ranges
  { s with id_generator := g',
           constraints := { s.constraints with requirements := reqs,
                                               locked_time_ranges := ltrs } }

/-- The rollover step at the head of `DiagonatorManagerInner::refresh`
(manager.rs lines 367-371): when the derived date differs from the stored
one, store it and rebuild the day's instances. -/
def DiagonatorManagerInner.rolled (s : DiagonatorManagerInner)
    (current_time : Timestamp) : DiagonatorManagerInner :=
  if current_time.get_date ≠ s.current_date then
    DiagonatorManagerInner.new_day { s with current_date := current_time.get_date }
  else s

/-- Embeds `DiagonatorManagerInner::refresh` (manager.rs lines 366-381): roll the
day over if needed, compute the snapshot, and if it is enforcing, attempt
to lock the break timer and recompute. -/
def DiagonatorManagerInner.refresh (s : DiagonatorManagerInner)
    (current_time : Timestamp) : CurrentInfo × DiagonatorManagerInner :=
  let s := s.rolled current_time
  let (current_info, c) := s.constraints.get_current_info current_time
  let s := { s with constraints := c }
  if current_info.diagonator_running then
    match s.constraints.break_timer.lock current_time with
    | (Except.ok _, bt) =>
        let s := { s with constraints := { s.constraints with break_timer := bt } }
        let (current_info', c') := s.constraints.get_current_info current_time
        (current_info', { s with constraints := c' })
    | (Except.error _, bt) =>
        (current_info, { s with constraints := { s.constraints with break_timer := bt } })
  else (current_info, s)

/-- Embeds `DiagonatorManagerInner::new` (manager.rs lines 328-342). -/
def DiagonatorManagerInner.new (config : DiagonatorManagerConfig) :
    DiagonatorManagerInner :=
  let break_timer :=
    BreakTimerManager.new config.work_period_duration config.break_duration
  { config,
    constraints := { break_timer, requirements := [], locked_time_ranges := [],
                     deactivated_until := none },
    current_date := Timestamp.ZERO.get_date,
    id_generator := { last_id := 0 } }

/-- Embeds `DiagonatorManager` (manager.rs lines 202-207): the inner manager plus
the snapshot cache. -/
structure DiagonatorManager where
  manager : DiagonatorManagerInner
  cached_info : CurrentInfo
  cache_time : Timestamp
  cache_version : Nat
deriving Repr, DecidableEq

/-- Embeds `DiagonatorManager::NO_CACHE` (manager.rs line 210). -/
def DiagonatorManager.NO_CACHE : Nat := 0

/-- Embeds `DiagonatorManager::new` (manager.rs lines 211-220). -/
def DiagonatorManager.new (config : DiagonatorManagerConfig)
    (current_time : Timestamp) : DiagonatorManager :=
  let manager := DiagonatorManagerInner.new config
  let r := manager.refresh current_time
  { manager := r.2, cached_info := r.1, cache_time := current_time,
    cache_version := DiagonatorManager.NO_CACHE + 1 }

/-- Embeds `DiagonatorManager::refresh_cache` (manager.rs lines 309-317):
recompute; bump the version and replace the cached snapshot exactly when
the new snapshot differs by value. -/
def DiagonatorManager.refresh_cache (m : DiagonatorManager)
    (current_time : Timestamp) : CurrentInfo × DiagonatorManager :=
  let (new_info, inner) := m.manager.refresh current_time
  let m := { m with manager := inner, cache_time := current_time }
  if new_info ≠ m.cached_info then
    (new_info, { m with cached_info := new_info,
                        cache_version := m.cache_version + 1 })
  else (new_info, m)

/-- Helper for the nested `&mut` writes of the source: replace the break
timer inside the manager. -/
def DiagonatorManager.withBreakTimer (m : DiagonatorManager)
    (bt : BreakTimerManager) : DiagonatorManager :=
  { m with manager := { m.manager with
      constraints := { m.manager.constraints with break_timer := bt } } }

/-- Helper for the nested `&mut` writes of the source: replace the
constraints aggregate inside the manager. -/
def DiagonatorManager.withConstraints (m : DiagonatorManager)
    (c : Constraints) : DiagonatorManager :=
  { m with manager := { m.manager with constraints := c } }

/-- Embeds `DiagonatorManager::unlock_timer` (manager.rs lines 221-236). -/
def DiagonatorManager.unlock_timer (m : DiagonatorManager)
    (current_time : Timestamp) : Response × DiagonatorManager :=
  let r := m.refresh_cache current_time
  let info := r.1
  let m := r.2
  if info.state = CurrentState.Unlockable then
    match m.manager.constraints.break_timer.unlock current_time with
    | (Except.ok _, bt) =>
        let m := m.withBreakTimer bt
        (Response.Success, (m.refresh_cache current_time).2)
    | (Except.error msg, bt) => (Response.Error msg, m.withBreakTimer bt)
  else (Response.Error "Session is not unlockable.", m)

/-- Embeds `DiagonatorManager::lock_timer` (manager.rs lines 237-247): clear the
deactivation override, refresh, then attempt to lock the break timer. -/
def DiagonatorManager.lock_timer (m : DiagonatorManager)
    (current_time : Timestamp) : Response × DiagonatorManager :=
  let m := m.withConstraints
    { m.manager.constraints with deactivated_until := none }
  let m := (m.refresh_cache current_time).2
  match m.manager.constraints.break_timer.lock current_time with
  | (Except.ok _, bt) =>
      let m := m.withBreakTimer bt
      (Response.Success, (m.refresh_cache current_time).2)
  | (Except.error msg, bt) => (Response.Error msg, m.withBreakTimer bt)

/-- Embeds `DiagonatorManager::get_info` (manager.rs lines 248-250). -/
def DiagonatorManager.get_info (m : DiagonatorManager) : CurrentInfo :=
  m.cached_info

/-- Embeds `DiagonatorManager::get_info_if_changed` (manager.rs lines 251-264):
refresh only when the queried instant differs from the cache's as-of
instant; report the snapshot and version only when the version differs
from the caller's. -/
def DiagonatorManager.get_info_if_changed (m : DiagonatorManager)
    (cache_version : Nat) (current_time : Timestamp) :
    Option (CurrentInfo × Nat) × DiagonatorManager :=
  let m := if current_time ≠ m.cache_time
    then (m.refresh_cache current_time).2 else m
  if cache_version ≠ m.cache_version then
    (some (m.cached_info, m.cache_version), m)
  else (none, m)

/-- Embeds `DiagonatorManager::get_info_once` (manager.rs lines 265-269). -/
def DiagonatorManager.get_info_once (m : DiagonatorManager)
    (current_time : Timestamp) : Response × DiagonatorManager :=
  let r := m.refresh_cache current_time
  (Response.Info r.1, r.2)

/-- Embeds `DiagonatorManager::complete_requirement` (manager.rs lines 270-287). -/
def DiagonatorManager.complete_requirement (m : DiagonatorManager)
    (current_time : Timestamp) (requirement_id : Nat) :
    Response × DiagonatorManager :=
  let m := (m.refresh_cache current_time).2
  match m.manager.constraints.complete_requirement requirement_id with
  | (Except.ok _, c) =>
      let m := m.withConstraints c
      (Response.Success, (m.refresh_cache current_time).2)
  | (Except.error msg, c) => (Response.Error msg, m.withConstraints c)

/-- Embeds `DiagonatorManager::add_requirement` (manager.rs lines 288-303). -/
def DiagonatorManager.add_requirement (m : DiagonatorManager)
    (current_time : Timestamp) (name : String) (due : HourMinute) :
    Response × DiagonatorManager :=
  let m := (m.refresh_cache current_time).2
  let (id, g) := m.manager.id_generator.next_id
  let m := { m with manager := { m.manager with
      id_generator := g,
      constraints := { m.manager.constraints with
        requirements := m.manager.constraints.requirements.concat
          { id, name,
            due := Timestamp.from_date_hm m.manager.current_date due,
            complete := false } } } }
  (Response.Success, (m.refresh_cache current_time).2)

/-- Embeds `DiagonatorManager::deactivate` (manager.rs lines 304-308). -/
def DiagonatorManager.deactivate (m : DiagonatorManager)
    (current_time : Timestamp) (duration : Duration) :
    Response × DiagonatorManager :=
  let m := m.withConstraints
    { m.manager.constraints with deactivated_until := some (current_time + duration) }
  (Response.Success, (m.refresh_cache current_time).2)

/-- The tail of `DiagonatorManager::lock_timer` after the entry
override-clear and cache refresh, as a function of the entry-refreshed
manager (factored out for reasoning about the error path). -/
def lockTail (m1 : DiagonatorManager) (current_time : Timestamp) :
    Response × DiagonatorManager :=
  match m1.manager.constraints.break_timer.lock current_time with
  | (Except.ok _, bt) =>
      (Response.Success, ((m1.withBreakTimer bt).refresh_cache current_time).2)
  | (Except.error msg, bt) => (Response.Error msg, m1.withBreakTimer bt)

/-- The tail of `DiagonatorManager::complete_requirement` after the entry
cache refresh, as a function of the entry-refreshed manager. -/
def completeTail (m1 : DiagonatorManager) (current_time : Timestamp)
    (requirement_id : Nat) : Response × DiagonatorManager :=
  match m1.manager.constraints.complete_requirement requirement_id with
  | (Except.ok _, c) =>
      (Response.Success, ((m1.withConstraints c).refresh_cache current_time).2)
  | (Except.error msg, c) => (Response.Error msg, m1.withConstraints c)

/-- Whether the timer state is the `Unlocked` variant. -/
def BreakTimer.isUnlocked : BreakTimer → Bool
  | BreakTimer.Unlocked _ => true
  | _ => false

/-- Manager states reachable through the public operation set: construction
(`DiagonatorManager::new`) followed by any sequence of the operations of
manager.rs. -/
inductive Reachable : DiagonatorManager → Prop where
  | new (config : DiagonatorManagerConfig) (t : Timestamp) :
      Reachable (DiagonatorManager.new config t)
  | unlock_timer {m : DiagonatorManager} (t : Timestamp) :
      Reachable m → Reachable (m.unlock_timer t).2
  | lock_timer {m : DiagonatorManager} (t : Timestamp) :
      Reachable m → Reachable (m.lock_timer t).2
  | get_info_if_changed {m : DiagonatorManager} (v : Nat) (t : Timestamp) :
      Reachable m → Reachable (m.get_info_if_changed v t).2
  | get_info_once {m : DiagonatorManager} (t : Timestamp) :
      Reachable m → Reachable (m.get_info_once t).2
  | complete_requirement {m : DiagonatorManager} (t : Timestamp) (id : Nat) :
      Reachable m → Reachable (m.complete_requirement t id).2
  | add_requirement {m : DiagonatorManager} (t : Timestamp) (name : String)
      (due : HourMinute) :
      Reachable m → Reachable (m.add_requirement t name due).2
  | deactivate {m : DiagonatorManager} (t : Timestamp) (d : Duration) :
      Reachable m → Reachable (m.deactivate t d).2

/-! ## Proofs -/

lemma refresh_eq_refreshTimer (m : BreakTimerManager) (t : Timestamp) :
    m.refresh t = { m with timer := refreshTimer m.break_duration t m.timer } := by
  obtain ⟨tm, wpd, bd⟩ := m
  cases tm with
  | Unlocked u =>
      simp only [BreakTimerManager.refresh, refreshTimer, ge_iff_le]
      by_cases h1 : u ≤ t
      · simp only [h1, if_true]
        by_cases h2 : u + bd ≤ t <;> simp [h1, h2]
      · simp [h1]
  | Locked u =>
      simp only [BreakTimerManager.refresh, refreshTimer, ge_iff_le]
      by_cases h1 : u ≤ t <;> simp [h1]
  | Unlockable =>
      simp [BreakTimerManager.refresh, refreshTimer]

lemma refreshTimer_idem (bd : Duration) (t : Timestamp) (s : BreakTimer) :
    refreshTimer bd t (refreshTimer bd t s) = refreshTimer bd t s := by
  cases s with
  | Unlocked u =>
      simp only [refreshTimer]
      by_cases h1 : u ≤ t
      · by_cases h2 : u + bd ≤ t <;> simp [refreshTimer, h1, h2]
      · simp [refreshTimer, h1]
  | Locked u =>
      by_cases h1 : u ≤ t <;> simp [refreshTimer, h1]
  | Unlockable => simp [refreshTimer]

lemma refresh_idem (m : BreakTimerManager) (t : Timestamp) :
    (m.refresh t).refresh t = m.refresh t := by
  simp only [refresh_eq_refreshTimer]
  simp [refreshTimer_idem]

lemma refreshTimer_mono (bd : Duration) (t1 t2 : Timestamp) (s : BreakTimer)
    (h : t1 ≤ t2) :
    refreshTimer bd t2 (refreshTimer bd t1 s) = refreshTimer bd t2 s := by
  cases s with
  | Unlocked u =>
      simp only [refreshTimer]
      by_cases h1 : u ≤ t1
      · have h1' : u ≤ t2 := le_trans h1 h
        by_cases h2 : u + bd ≤ t1
        · have h2' : u + bd ≤ t2 := le_trans h2 h
          simp [refreshTimer, h1, h2, h1', h2']
        · by_cases h3 : u + bd ≤ t2 <;> simp [refreshTimer, h1, h2, h1', h3]
      · simp [refreshTimer, h1]
  | Locked u =>
      by_cases h1 : u ≤ t1
      · have h1' : u ≤ t2 := le_trans h1 h
        simp [refreshTimer, h1, h1']
      · simp [refreshTimer, h1]
  | Unlockable => simp [refreshTimer]


/-- C2: for every break-timer state and instant `now`, `refresh now`
transitions `Unlocked{until}` with `now ≥ until` to
`Locked{until + break_duration}` (anchored to the expired `until`), then
`Locked{until'}` with `now ≥ until'` to `Unlockable`, cascading both
transitions in one call, and leaves the state unchanged otherwise; a second
refresh at the same `now` fires no further transition. -/
theorem break_timer_refresh_transitions (m : BreakTimerManager) (now : Timestamp) :
    ((m.refresh now).timer =
      match m.timer with
      | BreakTimer.Unlocked u =>
          if now ≥ u then
            (if now ≥ u + m.break_duration then BreakTimer.Unlockable
             else BreakTimer.Locked (u + m.break_duration))
          else BreakTimer.Unlocked u
      | BreakTimer.Locked u =>
          if now ≥ u then BreakTimer.Unlockable else BreakTimer.Locked u
      | BreakTimer.Unlockable => BreakTimer.Unlockable)
    ∧ (m.refresh now).refresh now = m.refresh now := by
  constructor
  · rw [refresh_eq_refreshTimer]
    cases m.timer <;> simp [refreshTimer, ge_iff_le]
  · exact refresh_idem m now

/-- C7: break-timer refresh is idempotent and order-independent under
non-decreasing instants: for `t1 ≤ t2`, refreshing at `t1` and then at `t2`
equals refreshing at `t2` alone, and refreshing twice at `t1` equals
refreshing once. -/
theorem break_timer_refresh_mono_idem (m : BreakTimerManager)
    (t1 t2 : Timestamp) (h : t1 ≤ t2) :
    (m.refresh t1).refresh t2 = m.refresh t2
      ∧ (m.refresh t1).refresh t1 = m.refresh t1 := by
  constructor
  · simp only [refresh_eq_refreshTimer]
    simp [refreshTimer_mono _ _ _ _ h]
  · exact refresh_idem m t1

theorem break_timer_refresh_mono_idem_witness :
    (3 : Timestamp) ≤ 5
      ∧ (((BreakTimerManager.new 25 5).refresh 3).refresh 5
            = (BreakTimerManager.new 25 5).refresh 5
         ∧ ((BreakTimerManager.new 25 5).refresh 3).refresh 3
            = (BreakTimerManager.new 25 5).refresh 3) :=
  ⟨by decide, break_timer_refresh_mono_idem (BreakTimerManager.new 25 5) 3 5 (by decide)⟩

/-- C6: `unlock now` succeeds exactly when the refreshed timer is
`Unlockable`, setting it to `Unlocked{now + work_period}`, and fails
leaving the refreshed state unchanged otherwise; `lock now` succeeds
exactly when the refreshed timer is `Unlocked`, setting it to
`Locked{now + break_duration}`, and fails leaving the refreshed state
unchanged otherwise. -/
theorem break_timer_unlock_lock_spec (m : BreakTimerManager) (now : Timestamp) :
    (match (m.refresh now).timer with
     | BreakTimer.Unlockable =>
         m.unlock now =
           (Except.ok (),
            { m.refresh now with
                timer := BreakTimer.Unlocked (now + m.work_period_duration) })
     | _ => (m.unlock now).1.isOk = false ∧ (m.unlock now).2 = m.refresh now)
    ∧
    (match (m.refresh now).timer with
     | BreakTimer.Unlocked _ =>
         m.lock now =
           (Except.ok (),
            { m.refresh now with
                timer := BreakTimer.Locked (now + m.break_duration) })
     | _ => (m.lock now).1.isOk = false ∧ (m.lock now).2 = m.refresh now) := by
  have hw : (m.refresh now).work_period_duration = m.work_period_duration := by
    rw [refresh_eq_refreshTimer]
  have hb : (m.refresh now).break_duration = m.break_duration := by
    rw [refresh_eq_refreshTimer]
  constructor
  · cases h : (m.refresh now).timer <;>
      simp [BreakTimerManager.unlock, h, hw, Except.isOk, Except.toBool]
  · cases h : (m.refresh now).timer <;>
      simp [BreakTimerManager.lock, h, hb, Except.isOk, Except.toBool]

lemma foldl_req_events (rs : List Requirement) (acc : Simulator) :
    rs.foldl
      (fun sim r =>
        if !r.complete then
          sim.concat { kind := StateChangeKind.RequirementLocked r.id, time := r.due }
        else sim) acc
      = acc ++ (rs.filter fun r => !r.complete).map
          (fun r => { kind := StateChangeKind.RequirementLocked r.id, time := r.due }) := by
  induction rs generalizing acc with
  | nil => simp
  | cons r rs ih =>
      rw [List.foldl_cons, ih]
      by_cases h : r.complete <;>
        simp [List.filter_cons, h, List.concat_eq_append]

lemma foldl_range_events (ls : List TimeRange) (acc : Simulator) :
    ls.foldl
      (fun sim ltr =>
        let sim := sim.concat
          { kind := StateChangeKind.RangeLocked ltr.id,
            time := ltr.start.getD Timestamp.ZERO }
        match ltr.«end» with
        | some ltr_end =>
            sim.concat { kind := StateChangeKind.RangeUnlocked ltr.id, time := ltr_end }
        | none => sim) acc
      = acc ++ ls.flatMap
          (fun ltr =>
            { kind := StateChangeKind.RangeLocked ltr.id,
              time := ltr.start.getD Timestamp.ZERO }
            :: (match ltr.«end» with
                | some e => [{ kind := StateChangeKind.RangeUnlocked ltr.id, time := e }]
                | none => [])) := by
  induction ls generalizing acc with
  | nil => simp
  | cons l ls ih =>
      rw [List.foldl_cons, ih]
      cases h : l.«end» <;>
        simp [h, List.concat_eq_append, List.append_assoc]

/-- C3 (amended): the event list handed to the simulator is exactly: one
lock trigger per incomplete requirement at its due instant; per range a
lock trigger at its start (day-start when absent) and an unlock trigger at
its end when present; and for the break timer, `Unlocked{until}` one lock
trigger at `until`, `Locked{until}` a lock trigger at the epoch plus an
unlock trigger at `until`, and `Unlockable` a single unlock trigger at the
epoch — in category order requirements, ranges, break timer, source-list
order within a category. -/
theorem events_pushed_spec (c : Constraints) :
    c.buildEvents
      = ((c.requirements.filter fun r => !r.complete).map
          (fun r => { kind := StateChangeKind.RequirementLocked r.id, time := r.due }))
        ++ (c.locked_time_ranges.flatMap
            (fun ltr =>
              { kind := StateChangeKind.RangeLocked ltr.id,
                time := ltr.start.getD Timestamp.ZERO }
              :: (match ltr.«end» with
                  | some e => [{ kind := StateChangeKind.RangeUnlocked ltr.id, time := e }]
                  | none => [])))
        ++ (match c.break_timer.timer with
            | BreakTimer.Unlocked u =>
                [{ kind := StateChangeKind.BreakTimerLocked, time := u }]
            | BreakTimer.Locked u =>
                [{ kind := StateChangeKind.BreakTimerLocked, time := Timestamp.ZERO },
                 { kind := StateChangeKind.BreakTimerUnlockable, time := u }]
            | BreakTimer.Unlockable =>
                [{ kind := StateChangeKind.BreakTimerUnlockable, time := Timestamp.ZERO }]) := by
  simp only [Constraints.buildEvents]
  rw [foldl_req_events, foldl_range_events]
  cases c.break_timer.timer <;>
    simp [List.concat_eq_append, List.append_assoc]

/-- C3 (counterexample): with no requirements, no ranges and the break
timer `Unlockable`, the claim says no trigger at all is pushed, but the
code pushes one `BreakTimerUnlockable` trigger at the epoch. -/
theorem events_unlockable_not_empty :
    Constraints.buildEvents
        { break_timer := { timer := BreakTimer.Unlockable,
                           work_period_duration := 25, break_duration := 5 },
          requirements := [], locked_time_ranges := [], deactivated_until := none }
      = [{ kind := StateChangeKind.BreakTimerUnlockable, time := Timestamp.ZERO }]
    ∧ (Constraints.buildEvents
        { break_timer := { timer := BreakTimer.Unlockable,
                           work_period_duration := 25, break_duration := 5 },
          requirements := [], locked_time_ranges := [], deactivated_until := none }).isEmpty
      = false := by
  constructor <;> rfl

/-- C8: the snapshot's enforcing flag (`diagonator_running`) is true unless
the combined state is `Unlocked` or a deactivation override is still
pending; an override instant less than or equal to the query instant is
cleared during the snapshot read (both in the returned snapshot and in the
stored aggregate), while a strictly later one is kept. -/
theorem enforcing_flag_spec (c : Constraints) (T : Timestamp) :
    ((c.get_current_info T).1).diagonator_running
      = !(decide (((c.get_current_info T).1).state = CurrentState.Unlocked)
          || ((c.get_current_info T).1).deactivated_until.isSome)
    ∧ ((c.get_current_info T).1).deactivated_until
      = (match c.deactivated_until with
         | some du => if T ≥ du then none else some du
         | none => none)
    ∧ ((c.get_current_info T).2).deactivated_until
      = ((c.get_current_info T).1).deactivated_until := by
  exact ⟨rfl, rfl, rfl⟩

lemma refresh_cache_time (m : DiagonatorManager) (T : Timestamp) :
    ((m.refresh_cache T).2).cache_time = T := by
  rcases h : m.manager.refresh T with ⟨ni, inner⟩
  simp only [DiagonatorManager.refresh_cache, h]
  split <;> rfl

/-- C1: the cache version increases by exactly 1 when the recomputed
snapshot differs by value from the cached one and is unchanged otherwise;
and after one `get_info_if_changed` call at instant `T`, a repeated call at
the same `T` with no intervening mutation leaves the manager (hence the
version) unchanged. -/
theorem cache_version_spec (m : DiagonatorManager) (v v' : Nat) (T : Timestamp) :
    ((m.refresh_cache T).2).cache_version
      = (if (m.manager.refresh T).1 ≠ m.cached_info then m.cache_version + 1
         else m.cache_version)
    ∧ (((m.get_info_if_changed v T).2).get_info_if_changed v' T).2
        = (m.get_info_if_changed v T).2 := by
  constructor
  · rcases h : m.manager.refresh T with ⟨ni, inner⟩
    simp only [DiagonatorManager.refresh_cache, h]
    split <;> rfl
  · have h1 : ((m.get_info_if_changed v T).2).cache_time = T := by
      simp only [DiagonatorManager.get_info_if_changed]
      by_cases h : T = m.cache_time
      · rw [if_neg (show ¬(T ≠ m.cache_time) by simp [h])]
        split <;> exact h.symm
      · rw [if_pos (show T ≠ m.cache_time from h)]
        split <;> exact refresh_cache_time m T
    conv_lhs => rw [DiagonatorManager.get_info_if_changed]
    rw [h1, if_neg (show ¬(T ≠ T) by simp)]
    split <;> rfl

lemma gci_break_timer (c : Constraints) (T : Timestamp) :
    ((c.get_current_info T).2).break_timer = c.break_timer.refresh T := rfl

lemma lock_snd_not_unlocked (m : BreakTimerManager) (t : Timestamp) :
    ((m.lock t).2).timer.isUnlocked = false := by
  cases h : (m.refresh t).timer <;>
    simp [BreakTimerManager.lock, h, BreakTimer.isUnlocked]

lemma refresh_not_unlocked (m : BreakTimerManager) (t : Timestamp)
    (h : m.timer.isUnlocked = false) :
    ((m.refresh t).timer).isUnlocked = false := by
  rw [refresh_eq_refreshTimer]
  cases hm : m.timer with
  | Unlocked u => rw [hm] at h; simp [BreakTimer.isUnlocked] at h
  | Locked u =>
      simp only [refreshTimer]
      split <;> simp [BreakTimer.isUnlocked]
  | Unlockable => simp [refreshTimer, BreakTimer.isUnlocked]

/-- C5: after a recomputation whose snapshot is enforcing, the manager
attempts to lock the break timer (ignoring failure) and recomputes;
consequently `DiagonatorManagerInner::refresh` never returns a snapshot
with `diagonator_running = true` while leaving the break timer in the
`Unlocked` variant. -/
theorem refresh_never_running_while_unlocked (s : DiagonatorManagerInner)
    (T : Timestamp) :
    (((s.refresh T).1).diagonator_running
      && (((s.refresh T).2).constraints.break_timer.timer.isUnlocked)) = false := by
  unfold DiagonatorManagerInner.refresh
  rcases hg : (s.rolled T).constraints.get_current_info T with ⟨ci, c⟩
  simp only [hg]
  by_cases hr : ci.diagonator_running
  · simp only [hr, if_true]
    rcases hl : c.break_timer.lock T with ⟨res, bt⟩
    have hbt : bt.timer.isUnlocked = false := by
      have := lock_snd_not_unlocked c.break_timer T
      rw [hl] at this
      exact this
    cases res with
    | ok _ =>
        rcases hg2 : (Constraints.get_current_info
            { c with break_timer := bt } T) with ⟨ci2, c2⟩
        have hc2 : c2.break_timer.timer.isUnlocked = false := by
          have h1 := congrArg Prod.snd hg2
          have h2 := gci_break_timer ({ c with break_timer := bt }) T
          rw [h1] at h2
          rw [h2]
          exact refresh_not_unlocked bt T hbt
        simp only [hg2]
        simp [hc2]
    | error _ =>
        simp [hbt]
  · simp [Bool.eq_false_iff.mpr hr]

lemma makeRequirements_cons_fst (d : LocalDate) (g : IdGenerator)
    (rc : RequirementConfig) (rcs : List RequirementConfig) :
    (makeRequirements d g (rc :: rcs)).1
      = { id := g.last_id + 1, name := rc.name,
          due := Timestamp.from_date_hm d rc.due, complete := false }
          :: (makeRequirements d ⟨g.last_id + 1⟩ rcs).1 := rfl

lemma makeRequirements_cons_snd (d : LocalDate) (g : IdGenerator)
    (rc : RequirementConfig) (rcs : List RequirementConfig) :
    (makeRequirements d g (rc :: rcs)).2
      = (makeRequirements d ⟨g.last_id + 1⟩ rcs).2 := rfl

lemma makeRanges_cons_fst (d : LocalDate) (g : IdGenerator)
    (rc : LockedTimeRangeConfig) (rcs : List LockedTimeRangeConfig) :
    (makeRanges d g (rc :: rcs)).1
      = { id := g.last_id + 1,
          start := Timestamp.from_date_hm_opt d rc.start,
          «end» := Timestamp.from_date_hm_opt d rc.«end» }
          :: (makeRanges d ⟨g.last_id + 1⟩ rcs).1 := rfl

lemma makeRanges_cons_snd (d : LocalDate) (g : IdGenerator)
    (rc : LockedTimeRangeConfig) (rcs : List LockedTimeRangeConfig) :
    (makeRanges d g (rc :: rcs)).2
      = (makeRanges d ⟨g.last_id + 1⟩ rcs).2 := rfl

lemma makeRequirements_spec (d : LocalDate) (ts : List RequirementConfig) :
    ∀ g : IdGenerator,
    (makeRequirements d g ts).1
      = ts.mapIdx (fun i rc =>
          { id := g.last_id + 1 + i, name := rc.name,
            due := Timestamp.from_date_hm d rc.due, complete := false })
    ∧ (makeRequirements d g ts).2 = ⟨g.last_id + ts.length⟩ := by
  induction ts with
  | nil => intro g; simp [makeRequirements]
  | cons rc rcs ih =>
      intro g
      obtain ⟨ih1, ih2⟩ := ih ⟨g.last_id + 1⟩
      refine ⟨?_, ?_⟩
      · rw [makeRequirements_cons_fst, ih1, List.mapIdx_cons]
        congr 1
        congr 1
        funext i rc'
        simp only [Requirement.mk.injEq, and_true]
        omega
      · rw [makeRequirements_cons_snd, ih2]
        simp only [IdGenerator.mk.injEq, List.length_cons]
        omega

lemma makeRanges_spec (d : LocalDate) (ts : List LockedTimeRangeConfig) :
    ∀ g : IdGenerator,
    (makeRanges d g ts).1
      = ts.mapIdx (fun i rc =>
          { id := g.last_id + 1 + i,
            start := Timestamp.from_date_hm_opt d rc.start,
            «end» := Timestamp.from_date_hm_opt d rc.«end» })
    ∧ (makeRanges d g ts).2 = ⟨g.last_id + ts.length⟩ := by
  induction ts with
  | nil => intro g; simp [makeRanges]
  | cons rc rcs ih =>
      intro g
      obtain ⟨ih1, ih2⟩ := ih ⟨g.last_id + 1⟩
      refine ⟨?_, ?_⟩
      · rw [makeRanges_cons_fst, ih1, List.mapIdx_cons]
        congr 1
        congr 1
        funext i rc'
        simp only [TimeRange.mk.injEq, and_true]
        omega
      · rw [makeRanges_cons_snd, ih2]
        simp only [IdGenerator.mk.injEq, List.length_cons]
        omega

lemma new_day_eq (s : DiagonatorManagerInner) :
    s.new_day
      = { s with
          id_generator :=
            (makeRanges s.current_date
              (makeRequirements s.current_date s.id_generator s.config.requirements).2
              s.config.locked_time_ranges).2,
          constraints := { s.constraints with
            requirements :=
              (makeRequirements s.current_date s.id_generator s.config.requirements).1,
            locked_time_ranges :=
              (makeRanges s.current_date
                (makeRequirements s.current_date s.id_generator s.config.requirements).2
                s.config.locked_time_ranges).1 } } := rfl

/-- C9: when the calendar date derived from the query instant differs from
the stored date, the rollover step performed at the head of
`DiagonatorManagerInner::refresh` replaces the requirement and range
instance lists entirely from the configuration templates — fresh
consecutive ids continuing from the id generator, `complete` reset to
false, due/boundary instants anchored to the new date — while leaving the
break timer and the deactivation override untouched; and the refreshed
manager carries the new date. -/
theorem rollover_replaces_instances (s : DiagonatorManagerInner)
    (T : Timestamp) (h : T.get_date ≠ s.current_date) :
    (s.rolled T).constraints.break_timer = s.constraints.break_timer
    ∧ (s.rolled T).constraints.deactivated_until = s.constraints.deactivated_until
    ∧ (s.rolled T).current_date = T.get_date
    ∧ (s.rolled T).config = s.config
    ∧ (s.rolled T).constraints.requirements
        = s.config.requirements.mapIdx (fun i rc =>
            { id := s.id_generator.last_id + 1 + i, name := rc.name,
              due := Timestamp.from_date_hm T.get_date rc.due, complete := false })
    ∧ (s.rolled T).constraints.locked_time_ranges
        = s.config.locked_time_ranges.mapIdx (fun i rc =>
            { id := s.id_generator.last_id + s.config.requirements.length + 1 + i,
              start := Timestamp.from_date_hm_opt T.get_date rc.start,
              «end» := Timestamp.from_date_hm_opt T.get_date rc.«end» }) := by
  have hroll : s.rolled T
      = DiagonatorManagerInner.new_day { s with current_date := T.get_date } := by
    unfold DiagonatorManagerInner.rolled
    rw [if_pos h]
  obtain ⟨hr1, hr2⟩ :=
    makeRequirements_spec T.get_date s.config.requirements s.id_generator
  obtain ⟨hg1, _⟩ := makeRanges_spec T.get_date s.config.locked_time_ranges
      ⟨s.id_generator.last_id + s.config.requirements.length⟩
  rw [hroll, new_day_eq]
  refine ⟨rfl, rfl, rfl, rfl, ?_, ?_⟩
  · exact hr1
  · show (makeRanges T.get_date
        (makeRequirements T.get_date s.id_generator s.config.requirements).2
        s.config.locked_time_ranges).1 = _
    rw [hr2, hg1]

theorem rollover_replaces_instances_witness :
    ((1440 : Timestamp).get_date
        ≠ (DiagonatorManagerInner.new ⟨[⟨"r1", 510⟩], [⟨none, some 270⟩], 25, 5⟩).current_date)
    ∧ ((DiagonatorManagerInner.new ⟨[⟨"r1", 510⟩], [⟨none, some 270⟩], 25, 5⟩).rolled 1440).constraints.requirements
        = [{ id := 1, name := "r1", due := 1950, complete := false }]
    ∧ ((DiagonatorManagerInner.new ⟨[⟨"r1", 510⟩], [⟨none, some 270⟩], 25, 5⟩).rolled 1440).constraints.locked_time_ranges
        = [{ id := 2, start := none, «end» := some 1710 }]
    ∧ ((DiagonatorManagerInner.new ⟨[⟨"r1", 510⟩], [⟨none, some 270⟩], 25, 5⟩).rolled 1440).constraints.break_timer
        = (DiagonatorManagerInner.new ⟨[⟨"r1", 510⟩], [⟨none, some 270⟩], 25, 5⟩).constraints.break_timer := by
  have h := rollover_replaces_instances
    (DiagonatorManagerInner.new ⟨[⟨"r1", 510⟩], [⟨none, some 270⟩], 25, 5⟩) 1440
    (by decide)
  refine ⟨by decide, ?_, ?_, h.1⟩
  · rw [h.2.2.2.2.1]; rfl
  · rw [h.2.2.2.2.2]; rfl

lemma lock_error_snd (m : BreakTimerManager) (t : Timestamp) (msg : String)
    (h : (m.lock t).1 = Except.error msg) : (m.lock t).2 = m.refresh t := by
  cases ht : (m.refresh t).timer <;>
    simp [BreakTimerManager.lock, ht] at h ⊢

lemma unlock_error_snd (m : BreakTimerManager) (t : Timestamp) (msg : String)
    (h : (m.unlock t).1 = Except.error msg) : (m.unlock t).2 = m.refresh t := by
  cases ht : (m.refresh t).timer <;>
    simp [BreakTimerManager.unlock, ht] at h ⊢

lemma inner_refresh_timer_image (s : DiagonatorManagerInner) (T : Timestamp) :
    ∃ b : BreakTimerManager,
      ((s.refresh T).2).constraints.break_timer = b.refresh T := by
  unfold DiagonatorManagerInner.refresh
  rcases hg : (s.rolled T).constraints.get_current_info T with ⟨ci, c⟩
  have hc : c.break_timer = (s.rolled T).constraints.break_timer.refresh T := by
    have h2 := gci_break_timer (s.rolled T).constraints T
    rw [hg] at h2
    exact h2
  simp only [hg]
  by_cases hr : ci.diagonator_running
  · simp only [hr, if_true]
    rcases hl : c.break_timer.lock T with ⟨res, bt⟩
    cases res with
    | ok _ =>
        rcases hg2 : Constraints.get_current_info
            { c with break_timer := bt } T with ⟨ci2, c2⟩
        have hc2 : c2.break_timer = bt.refresh T := by
          have h2 := gci_break_timer ({ c with break_timer := bt }) T
          rw [hg2] at h2
          exact h2
        simp only [hg2]
        exact ⟨bt, hc2⟩
    | error msg =>
        have h2 : (c.break_timer.lock T).2 = bt := by rw [hl]
        have hbt : bt = c.break_timer.refresh T := by
          rw [← h2]
          exact lock_error_snd c.break_timer T msg (by rw [hl])
        exact ⟨c.break_timer, hbt⟩
  · simp only [Bool.eq_false_iff.mpr hr, if_false]
    exact ⟨(s.rolled T).constraints.break_timer, hc⟩

lemma refresh_cache_timer_fix (m : DiagonatorManager) (T : Timestamp) :
    (((m.refresh_cache T).2).manager.constraints.break_timer).refresh T
      = ((m.refresh_cache T).2).manager.constraints.break_timer := by
  obtain ⟨b, hb⟩ := inner_refresh_timer_image m.manager T
  rcases h : m.manager.refresh T with ⟨ni, inner⟩
  rw [h] at hb
  simp only at hb
  simp only [DiagonatorManager.refresh_cache, h]
  split <;> (show (inner.constraints.break_timer).refresh T = _) <;>
    rw [hb, refresh_idem]

/-- C4 (counterexample): `lock_timer` can return an error while still
having cleared the deactivation override — the mutation is not rejected
before any state is touched. -/
theorem lock_timer_error_clears_override :
    ((((DiagonatorManager.new ⟨[], [], 25, 5⟩ 0).deactivate 0 100).2).lock_timer 0).1
        = Response.Error "Break timer is not unlocked."
    ∧ (((DiagonatorManager.new ⟨[], [], 25, 5⟩ 0).deactivate 0 100).2).manager.constraints.deactivated_until
        = some 100
    ∧ ((((DiagonatorManager.new ⟨[], [], 25, 5⟩ 0).deactivate 0 100).2).lock_timer 0).2.manager.constraints.deactivated_until
        = none := ⟨rfl, rfl, rfl⟩

lemma lock_timer_eq (m : DiagonatorManager) (T : Timestamp) :
    m.lock_timer T
      = lockTail ((m.withConstraints
          { m.manager.constraints with deactivated_until := none }).refresh_cache T).2 T :=
  rfl

lemma complete_requirement_eq (m : DiagonatorManager) (T : Timestamp)
    (id : Nat) :
    m.complete_requirement T id
      = completeTail ((m.refresh_cache T).2) T id := rfl

lemma lockTail_error_frame (m1 : DiagonatorManager) (T : Timestamp)
    (hfix : m1.manager.constraints.break_timer.refresh T
        = m1.manager.constraints.break_timer) :
    (match lockTail m1 T with
     | (Response.Error _, m') => m' = m1
     | _ => True) := by
  rcases hl : m1.manager.constraints.break_timer.lock T with ⟨res, bt⟩
  simp only [lockTail, hl]
  cases res with
  | ok _ => exact trivial
  | error msg =>
      have hbt : bt = m1.manager.constraints.break_timer := by
        have hb : (m1.manager.constraints.break_timer.lock T).2 = bt := by
          rw [hl]
        rw [← hb, lock_error_snd _ _ msg (by rw [hl]), hfix]
      show m1.withBreakTimer bt = m1
      rw [hbt]
      rfl

lemma completeTail_error_frame (m1 : DiagonatorManager) (T : Timestamp)
    (id : Nat) :
    (match completeTail m1 T id with
     | (Response.Error _, m') => m' = m1
     | _ => True) := by
  rcases hc : m1.manager.constraints.complete_requirement id with ⟨res, c⟩
  simp only [completeTail, hc]
  cases res with
  | ok _ => exact trivial
  | error msg =>
      have hcc : c = m1.manager.constraints := by
        have hb : (m1.manager.constraints.complete_requirement id).2 = c := by
          rw [hc]
        rw [← hb]
        unfold Constraints.complete_requirement
        rcases hm : completeReqList id m1.manager.constraints.requirements
          with msgE | rsOk
        · rfl
        · have ha : (m1.manager.constraints.complete_requirement id).1
              = Except.error msg := by rw [hc]
          simp [Constraints.complete_requirement, hm] at ha
      show m1.withConstraints c = m1
      rw [hcc]
      rfl

/-- C4 (amended): every mutation either fully succeeds or fails having
performed only its entry steps — the entry cache refresh, and for
`lock_timer` also the clearing of the deactivation override; beyond those,
a failing `unlock_timer`, `lock_timer` or `complete_requirement` leaves the
manager exactly in its entry-refreshed state, and `add_requirement` and
`deactivate` never fail. -/
theorem mutation_error_frame (m : DiagonatorManager) (T : Timestamp)
    (id : Nat) (name : String) (due : HourMinute) (dur : Duration) :
    (match m.unlock_timer T with
     | (Response.Error _, m') => m' = (m.refresh_cache T).2
     | _ => True)
    ∧ (match m.lock_timer T with
       | (Response.Error _, m') =>
           m' = ((m.withConstraints
                  { m.manager.constraints with deactivated_until := none }).refresh_cache T).2
       | _ => True)
    ∧ (match m.complete_requirement T id with
       | (Response.Error _, m') => m' = (m.refresh_cache T).2
       | _ => True)
    ∧ (m.add_requirement T name due).1 = Response.Success
    ∧ (m.deactivate T dur).1 = Response.Success := by
  refine ⟨?_, ?_, ?_, ?_, ?_⟩
  · rcases h1 : m.refresh_cache T with ⟨info, m1⟩
    have hfix : (m1.manager.constraints.break_timer).refresh T
        = m1.manager.constraints.break_timer := by
      have h2 := refresh_cache_timer_fix m T
      rw [h1] at h2
      exact h2
    simp only [DiagonatorManager.unlock_timer, h1]
    by_cases hs : info.state = CurrentState.Unlockable
    · rw [if_pos hs]
      rcases hu : m1.manager.constraints.break_timer.unlock T with ⟨res, bt⟩
      cases res with
      | ok _ => exact trivial
      | error msg =>
          have hbt : bt = m1.manager.constraints.break_timer := by
            have hb : (m1.manager.constraints.break_timer.unlock T).2 = bt := by
              rw [hu]
            rw [← hb, unlock_error_snd _ _ msg (by rw [hu]), hfix]
          show m1.withBreakTimer bt = m1
          rw [hbt]
          rfl
    · rw [if_neg hs]
  · rw [lock_timer_eq]
    exact lockTail_error_frame _ T (refresh_cache_timer_fix _ T)
  · rw [complete_requirement_eq]
    exact completeTail_error_frame _ T id
  · rfl
  · rfl

lemma refresh_cache_version_mono (m : DiagonatorManager) (T : Timestamp) :
    m.cache_version ≤ ((m.refresh_cache T).2).cache_version := by
  rcases h : m.manager.refresh T with ⟨ni, inner⟩
  simp only [DiagonatorManager.refresh_cache, h]
  split
  · exact Nat.le_succ _
  · exact Nat.le_refl _

lemma unlock_timer_version_mono (m : DiagonatorManager) (T : Timestamp) :
    m.cache_version ≤ ((m.unlock_timer T).2).cache_version := by
  rcases h1 : m.refresh_cache T with ⟨info, m1⟩
  have ha : m.cache_version ≤ m1.cache_version := by
    have h2 := refresh_cache_version_mono m T
    rw [h1] at h2
    exact h2
  simp only [DiagonatorManager.unlock_timer, h1]
  by_cases hs : info.state = CurrentState.Unlockable
  · rw [if_pos hs]
    rcases hu : m1.manager.constraints.break_timer.unlock T with ⟨res, bt⟩
    cases res with
    | ok _ =>
        exact le_trans ha (refresh_cache_version_mono (m1.withBreakTimer bt) T)
    | error msg => exact ha
  · rw [if_neg hs]
    exact ha

lemma lockTail_version_mono (m1 : DiagonatorManager) (T : Timestamp) :
    m1.cache_version ≤ ((lockTail m1 T).2).cache_version := by
  rcases hl : m1.manager.constraints.break_timer.lock T with ⟨res, bt⟩
  simp only [lockTail, hl]
  cases res with
  | ok _ => exact refresh_cache_version_mono (m1.withBreakTimer bt) T
  | error msg => exact Nat.le_refl _

lemma lock_timer_version_mono (m : DiagonatorManager) (T : Timestamp) :
    m.cache_version ≤ ((m.lock_timer T).2).cache_version := by
  rw [lock_timer_eq]
  obtain ⟨i1, m1, h1⟩ : ∃ a b, (m.withConstraints
      { m.manager.constraints with deactivated_until := none }).refresh_cache T
        = (a, b) :=
    ⟨((m.withConstraints
        { m.manager.constraints with deactivated_until := none }).refresh_cache T).1,
     ((m.withConstraints
        { m.manager.constraints with deactivated_until := none }).refresh_cache T).2,
     rfl⟩
  rw [h1]
  have ha : m.cache_version ≤ m1.cache_version := by
    have h2 := refresh_cache_version_mono
      (m.withConstraints { m.manager.constraints with deactivated_until := none }) T
    rw [h1] at h2
    exact h2
  exact le_trans ha (lockTail_version_mono m1 T)

lemma completeTail_version_mono (m1 : DiagonatorManager) (T : Timestamp)
    (id : Nat) :
    m1.cache_version ≤ ((completeTail m1 T id).2).cache_version := by
  rcases hc : m1.manager.constraints.complete_requirement id with ⟨res, c⟩
  simp only [completeTail, hc]
  cases res with
  | ok _ => exact refresh_cache_version_mono (m1.withConstraints c) T
  | error msg => exact Nat.le_refl _

lemma complete_requirement_version_mono (m : DiagonatorManager)
    (T : Timestamp) (id : Nat) :
    m.cache_version ≤ ((m.complete_requirement T id).2).cache_version := by
  rw [complete_requirement_eq]
  obtain ⟨i1, m1, h1⟩ : ∃ a b, m.refresh_cache T = (a, b) :=
    ⟨(m.refresh_cache T).1, (m.refresh_cache T).2, rfl⟩
  rw [h1]
  have ha : m.cache_version ≤ m1.cache_version := by
    have h2 := refresh_cache_version_mono m T
    rw [h1] at h2
    exact h2
  exact le_trans ha (completeTail_version_mono m1 T id)

lemma get_info_if_changed_version_mono (m : DiagonatorManager) (v : Nat)
    (T : Timestamp) :
    m.cache_version ≤ ((m.get_info_if_changed v T).2).cache_version := by
  simp only [DiagonatorManager.get_info_if_changed]
  by_cases h : T = m.cache_time
  · rw [if_neg (show ¬(T ≠ m.cache_time) by simp [h])]
    split <;> exact Nat.le_refl _
  · rw [if_pos (show T ≠ m.cache_time from h)]
    split <;> exact refresh_cache_version_mono m T

lemma get_info_once_version_mono (m : DiagonatorManager) (T : Timestamp) :
    m.cache_version ≤ ((m.get_info_once T).2).cache_version :=
  refresh_cache_version_mono m T

lemma add_requirement_version_mono (m : DiagonatorManager) (T : Timestamp)
    (name : String) (due : HourMinute) :
    m.cache_version ≤ ((m.add_requirement T name due).2).cache_version := by
  obtain ⟨i1, m1, h1⟩ : ∃ a b, m.refresh_cache T = (a, b) :=
    ⟨(m.refresh_cache T).1, (m.refresh_cache T).2, rfl⟩
  have ha : m.cache_version ≤ m1.cache_version := by
    have h2 := refresh_cache_version_mono m T
    rw [h1] at h2
    exact h2
  simp only [DiagonatorManager.add_requirement, IdGenerator.next_id, h1]
  refine le_trans ?_ (refresh_cache_version_mono _ T)
  exact ha

lemma deactivate_version_mono (m : DiagonatorManager) (T : Timestamp)
    (d : Duration) :
    m.cache_version ≤ ((m.deactivate T d).2).cache_version :=
  refresh_cache_version_mono
    (m.withConstraints
      { m.manager.constraints with deactivated_until := some (T + d) }) T

/-- C10: the cache version of every reachable manager state is at least 1 —
it starts at `NO_CACHE + 1 = 1` and is only ever incremented — so it never
equals the reserved `NO_CACHE = 0`; hence a first-time caller passing
`NO_CACHE` to `get_info_if_changed` always receives the snapshot and
version rather than "unchanged". -/
theorem cache_version_never_no_cache (m : DiagonatorManager)
    (h : Reachable m) :
    1 ≤ m.cache_version
    ∧ ∀ T, ((m.get_info_if_changed DiagonatorManager.NO_CACHE T).1).isSome = true := by
  have hv : 1 ≤ m.cache_version := by
    induction h with
    | new config t => exact le_of_eq rfl
    | unlock_timer t _ ih => exact le_trans ih (unlock_timer_version_mono _ t)
    | lock_timer t _ ih => exact le_trans ih (lock_timer_version_mono _ t)
    | get_info_if_changed v t _ ih =>
        exact le_trans ih (get_info_if_changed_version_mono _ v t)
    | get_info_once t _ ih => exact le_trans ih (get_info_once_version_mono _ t)
    | complete_requirement t id _ ih =>
        exact le_trans ih (complete_requirement_version_mono _ t id)
    | add_requirement t name due _ ih =>
        exact le_trans ih (add_requirement_version_mono _ t name due)
    | deactivate t d _ ih => exact le_trans ih (deactivate_version_mono _ t d)
  refine ⟨hv, fun T => ?_⟩
  simp only [DiagonatorManager.get_info_if_changed]
  by_cases h : T = m.cache_time
  · rw [if_neg (show ¬(T ≠ m.cache_time) by simp [h])]
    rw [if_pos (show DiagonatorManager.NO_CACHE ≠ m.cache_version by
      show (0 : Nat) ≠ m.cache_version
      omega)]
    rfl
  · rw [if_pos (show T ≠ m.cache_time from h)]
    have hv2 : 1 ≤ ((m.refresh_cache T).2).cache_version :=
      le_trans hv (refresh_cache_version_mono m T)
    rw [if_pos (show DiagonatorManager.NO_CACHE
        ≠ ((m.refresh_cache T).2).cache_version by
      show (0 : Nat) ≠ ((m.refresh_cache T).2).cache_version
      omega)]
    rfl

theorem cache_version_never_no_cache_witness :
    1 ≤ (DiagonatorManager.new ⟨[], [], 25, 5⟩ 0).cache_version
    ∧ (((DiagonatorManager.new ⟨[], [], 25, 5⟩ 0).get_info_if_changed
          DiagonatorManager.NO_CACHE 7).1).isSome = true :=
  ⟨(cache_version_never_no_cache _ (Reachable.new ⟨[], [], 25, 5⟩ 0)).1,
   (cache_version_never_no_cache _ (Reachable.new ⟨[], [], 25, 5⟩ 0)).2 7⟩

end Diagonator
